import Mathlib

/-!
# Verification of the code-complexity-calculator core

A shallow embedding of the repository's complexity-analysis core:

* `CyclomaticComplexityCalculator.calculate`
  (src/src/analyzer/complexity/cyclomatic.ts),
* `BaseAnalyzer.calculateCognitiveComplexity` and
  `BaseAnalyzer.calculateMaintainabilityIndex` (src/src/analyzer/languages/base.ts),
* `JavaAnalyzer.extractFunctions` (src/src/analyzer/languages/java.ts),
* `LanguageDetector.detectLanguage` (src/lib/analyzer/detectors/languageDetector.js),
* the batch orchestrator `ComplexityAnalyzer.analyzeFile` / `analyzeFiles` /
  `chunkArray` / `updateAggregatedStats` / `finalizeAggregatedStats`.

Source text is modelled as `List Char`; the JavaScript regular expressions
used by the calculators are fixed literal patterns, embedded as explicit
scanners over the character list (word-boundary matching, non-overlapping
global counting).  JavaScript numbers holding counts are modelled as `Nat`
(they are only ever incremented), `Infinity`-sentinels as `Option Nat`
(`none` = `Infinity`), and float division in averages as `Rat` division.
-/

/-! ## Character classes (ASCII fragment of the JavaScript `\s` and `\w` classes) -/

/-- The opening brace character, `\x7b`. -/
def lbrace : Char := '\x7b'

/-- The closing brace character, `\x7d`. -/
def rbrace : Char := '\x7d'

/-- JavaScript `\s` (restricted to its ASCII members: space, tab, line feed,
carriage return, vertical tab, form feed). -/
def isSpaceChar (c : Char) : Bool :=
  c = ' ' || c = '\t' || c = '\n' || c = '\r' || c = '\x0b' || c = '\x0c'

/-- JavaScript `\w`: `[A-Za-z0-9_]`. -/
def isWordChar (c : Char) : Bool :=
  ('a' ≤ c && c ≤ 'z') || ('A' ≤ c && c ≤ 'Z') || ('0' ≤ c && c ≤ '9') || c = '_'

/-- ASCII lower-casing, the fragment of `String.prototype.toLowerCase`
exercised by the detector. -/
def asciiLower (c : Char) : Char :=
  if 'A' ≤ c && c ≤ 'Z' then Char.ofNat (c.toNat + 32) else c

/-- `String.prototype.trim`: strip leading and trailing whitespace. -/
def trimChars (s : List Char) : List Char :=
  ((s.dropWhile isSpaceChar).reverse.dropWhile isSpaceChar).reverse

/-- `string.split('\n')`: always returns at least one (possibly empty) line. -/
def splitNl : List Char → List (List Char)
  | [] => [[]]
  | c :: r =>
    let rs := splitNl r
    if c = '\n' then [] :: rs
    else
      match rs with
      | [] => [[c]]
      | h :: t => (c :: h) :: t

/-- Number of occurrences of a single character (e.g. the `/\?/g` count). -/
def countChar (c : Char) (s : List Char) : Nat :=
  s.countP (· = c)

/-- Whether `pat` occurs somewhere in `s` (JavaScript `String.prototype.includes`). -/
def containsSub (pat : List Char) : List Char → Bool
  | [] => pat.isPrefixOf []
  | c :: rest => pat.isPrefixOf (c :: rest) || containsSub pat rest

/-- Whether `s` starts with `pat` (JavaScript `String.prototype.startsWith`). -/
def startsWithSub (pat s : List Char) : Bool :=
  pat.isPrefixOf s

/-- `line.split('//')[0]`: the text before the first occurrence of `pat`
(the whole line when `pat` does not occur). -/
def takeBeforeSub (pat : List Char) : List Char → List Char
  | [] => []
  | c :: rest =>
    if pat.isPrefixOf (c :: rest) then []
    else c :: takeBeforeSub pat rest

/-- Non-overlapping count of a literal pattern, scanning left to right as a
global JavaScript regex does (used for `/&&/g` and `/\|\|/g`).  After a
match the scanner resumes at the regex `lastIndex`; the `skip` counter
consumes the remainder of the match one character at a time so that the
recursion is structural. -/
def countSubGo (pat : List Char) : Nat → List Char → Nat
  | _, [] => 0
  | skip + 1, _ :: rest => countSubGo pat skip rest
  | 0, c :: rest =>
    if pat ≠ [] && pat.isPrefixOf (c :: rest) then
      1 + countSubGo pat (pat.length - 1) rest
    else
      countSubGo pat 0 rest

/-- Non-overlapping count of a literal pattern (global-regex counting). -/
def countSub (pat s : List Char) : Nat :=
  countSubGo pat 0 s

/-- Is the next character (if any) a non-word character?  This is the
word-boundary test on the right edge of a keyword. -/
def wordEndB (s : List Char) : Bool :=
  match s.head? with
  | none => true
  | some c => !isWordChar c

/-- Count of non-overlapping matches of `/\bw\b/g` for a literal keyword `w`
consisting of word characters.  `prevWord` records whether the previous
character was a word character (the left word-boundary test); after a match
the `skip` counter consumes the rest of the matched keyword. -/
def countWordGo (w : List Char) : Bool → Nat → List Char → Nat
  | _, _, [] => 0
  | _, skip + 1, c :: rest => countWordGo w (isWordChar c) skip rest
  | prevWord, 0, c :: rest =>
    if !prevWord && w.isPrefixOf (c :: rest) && wordEndB ((c :: rest).drop w.length) then
      1 + countWordGo w (isWordChar c) (w.length - 1) rest
    else
      countWordGo w (isWordChar c) 0 rest

/-- Count of `/\bw\b/g` matches for the keyword `w`. -/
def countWord (w : String) (s : List Char) : Nat :=
  countWordGo w.toList false 0 s

/-- Attempt to match `else\s+if\b` at the head of `s`; returns the number of
characters consumed on success.  (`\s+` is deterministic here because `i`
is not a whitespace character.) -/
def elseIfHere (s : List Char) : Option Nat :=
  if ("else".toList).isPrefixOf s then
    let r := s.drop 4
    let sp := r.takeWhile isSpaceChar
    if sp ≠ [] && ("if".toList).isPrefixOf (r.drop sp.length)
        && wordEndB (r.drop (sp.length + 2)) then
      some (4 + sp.length + 2)
    else none
  else none

/-- Count of non-overlapping matches of `/\belse\s+if\b/g`, with the same
`prevWord`/`skip` technique as `countWordGo`. -/
def countElseIfGo : Bool → Nat → List Char → Nat
  | _, _, [] => 0
  | _, skip + 1, c :: rest => countElseIfGo (isWordChar c) skip rest
  | prevWord, 0, c :: rest =>
    match (if prevWord then none else elseIfHere (c :: rest)) with
    | some k => 1 + countElseIfGo (isWordChar c) (k - 1) rest
    | none => countElseIfGo (isWordChar c) 0 rest

/-- Count of `/\belse\s+if\b/g` matches. -/
def countElseIf (s : List Char) : Nat :=
  countElseIfGo false 0 s

/-! ## CyclomaticComplexityCalculator (src/src/analyzer/complexity/cyclomatic.ts) -/

/-- The `CyclomaticConfig` option record. -/
structure CyclomaticConfig where
  countCaseStatements : Bool
  countLogicalOperators : Bool
  countTernary : Bool
deriving DecidableEq, Repr

/-- `DEFAULT_CONFIG`: all optional categories enabled. -/
def DEFAULT_CONFIG : CyclomaticConfig :=
  { countCaseStatements := true, countLogicalOperators := true, countTernary := true }

namespace CyclomaticComplexityCalculator

/-- `CyclomaticComplexityCalculator.calculate`: empty or blank content scores
the base complexity 1; otherwise 1 plus the pattern counts of the decision
constructs, clamped below by `Math.max(1, complexity)`. -/
def calculate (config : CyclomaticConfig) (content : List Char) : Nat :=
  if content = [] || trimChars content = [] then 1
  else
    let complexity := 1
      + countWord "if" content
      + countElseIf content
      + countWord "while" content
      + countWord "for" content
      + countWord "do" content
      + countWord "catch" content
      + countWord "switch" content
      + (if config.countCaseStatements then countWord "case" content else 0)
      + (if config.countLogicalOperators then
          countSub ("&&".toList) content + countSub ("||".toList) content else 0)
      + (if config.countTernary then countChar '?' content else 0)
    Nat.max 1 complexity

end CyclomaticComplexityCalculator

/-! ## BaseAnalyzer.calculateCognitiveComplexity (src/src/analyzer/languages/base.ts)

The method scans the content line by line with a running nesting level,
skipping comment lines, and adds per-line contributions according to the
fixed `if / else if / else / loop / switch / catch / break-continue /
logical-operator / ternary` rules.  Each JavaScript regex test used by the
method is a fixed pattern, embedded below as an explicit scanner. -/

/-- Existence-style regex test: does the predicate `p` hold at some
position of the string?  `p` receives the left-word-boundary flag and the
remaining characters at that position (positions include the end of the
string, where the tail is `[]`). -/
def scanExists (p : Bool → List Char → Bool) : Bool → List Char → Bool
  | pw, [] => p pw []
  | pw, c :: rest => p pw (c :: rest) || scanExists p (isWordChar c) rest

/-- After `s`, does a `\s*` run lead directly to the character `t`? -/
def afterSpacesIs (t : Char) (s : List Char) : Bool :=
  (s.dropWhile isSpaceChar).head? = some t

/-- Test of `/\bW\s*\(/` for one of the literal keywords `ws`
(e.g. `/\bif\s*\(/`, `/\b(for|while|do)\s*\(/`). -/
def testWordParen (ws : List String) (s : List Char) : Bool :=
  scanExists (fun pw r =>
    !pw && ws.any (fun w => (w.toList).isPrefixOf r && afterSpacesIs '(' (r.drop w.toList.length)))
    false s

/-- Test of `/\belse\s+if/`. -/
def testElseIfAny (s : List Char) : Bool :=
  scanExists (fun pw r =>
    !pw && ("else".toList).isPrefixOf r &&
      (let t := r.drop 4
       let sp := t.takeWhile isSpaceChar
       !sp.isEmpty && ("if".toList).isPrefixOf (t.drop sp.length)))
    false s

/-- Test of `/\belse\s+if\s*\(/`. -/
def testElseIfParen (s : List Char) : Bool :=
  scanExists (fun pw r =>
    !pw && ("else".toList).isPrefixOf r &&
      (let t := r.drop 4
       let sp := t.takeWhile isSpaceChar
       !sp.isEmpty && ("if".toList).isPrefixOf (t.drop sp.length) &&
         afterSpacesIs '(' (t.drop (sp.length + 2))))
    false s

/-- Test of `/\belse\b(?!\s+if)/`: an `else` with word boundaries that is
not followed by whitespace and `if`. -/
def testElseNotIf (s : List Char) : Bool :=
  scanExists (fun pw r =>
    !pw && ("else".toList).isPrefixOf r && wordEndB (r.drop 4) &&
      !(let t := r.drop 4
        let sp := t.takeWhile isSpaceChar
        !sp.isEmpty && ("if".toList).isPrefixOf (t.drop sp.length)))
    false s

/-- Test of `/\b(break|continue)\s*;/`. -/
def testBreakContinue (s : List Char) : Bool :=
  scanExists (fun pw r =>
    !pw && (["break", "continue"].any (fun w =>
      (w.toList).isPrefixOf r && afterSpacesIs ';' (r.drop w.toList.length))))
    false s

/-- Test of `/\b(if|for|while|do|switch|catch|else)\b/`, the guard of the
nesting-level increment. -/
def testNestKeyword (s : List Char) : Bool :=
  scanExists (fun pw r =>
    !pw && (["if", "for", "while", "do", "switch", "catch", "else"].any (fun w =>
      (w.toList).isPrefixOf r && wordEndB (r.drop w.toList.length))))
    false s

/-- Count of `/&&|\|\|/g` matches (non-overlapping). -/
def countAndOr : List Char → Nat
  | [] => 0
  | c :: rest =>
    if ("&&".toList).isPrefixOf (c :: rest) || ("||".toList).isPrefixOf (c :: rest) then
      match rest with
      | [] => 1
      | _ :: rest' => 1 + countAndOr rest'
    else
      countAndOr rest

namespace BaseAnalyzer

/-- Loop state of `calculateCognitiveComplexity`: the accumulated
complexity, the current nesting level and the multi-line-comment flag. -/
structure CogState where
  complexity : Nat
  nesting : Nat
  inMultilineComment : Bool
deriving DecidableEq, Repr

/-- The processed form of a line: `lines[i].trim().split('//')[0].trim()`. -/
def stripLine (raw : List Char) : List Char :=
  trimChars (takeBeforeSub ("//".toList) (trimChars raw))

/-- The contribution of the `if / else if / else / loop / switch / catch /
break-continue` rule chain for a processed line at nesting level `n`
(rules 1–8 of the method; `case` adds nothing). -/
def chainAdd (l : List Char) (n : Nat) : Nat :=
  if testWordParen ["if"] l && !testElseIfAny l then 1 + n
  else if testElseIfParen l then 1
  else if testElseNotIf l then 1
  else if testWordParen ["for", "while", "do"] l then 1 + n
  else if testWordParen ["switch"] l then 1 + n
  else if testWordParen ["catch"] l then 1 + n
  else if testBreakContinue l then 1
  else 0

/-- Rule 9: one point per logical operator, except on `else if` lines. -/
def andOrAdd (l : List Char) : Nat :=
  if testElseIfAny l then 0 else countAndOr l

/-- Rule 10: each `?` adds `1 + nesting`. -/
def ternaryAdd (l : List Char) (n : Nat) : Nat :=
  let ternary := countChar '?' l
  if 0 < ternary then ternary * (1 + n) else 0

/-- The nesting level after a processed line: incremented when the line
names a block-introducing keyword, does not end in `;`, and opens a brace
(on the same line, or the next raw line starts with one); then decremented
by the number of closing braces, clamped at zero. -/
def nestingAfter (l : List Char) (nextRaw : Option (List Char)) (n : Nat) : Nat :=
  let n1 :=
    if testNestKeyword l && !(l.getLast? = some ';') &&
        (0 < countChar lbrace l ||
          (match nextRaw with
           | some nx => startsWithSub [lbrace] (trimChars nx)
           | none => false)) then
      n + 1
    else n
  n1 - countChar rbrace l

/-- One iteration of the `calculateCognitiveComplexity` loop on the raw
line `raw` with lookahead `nextRaw` (used only by the brace heuristic). -/
def cogLine (st : CogState) (raw : List Char) (nextRaw : Option (List Char)) : CogState :=
  let t := trimChars raw
  let inC1 := st.inMultilineComment || containsSub ("/*".toList) t
  if containsSub ("*/".toList) t then
    { st with inMultilineComment := false }
  else if inC1 || startsWithSub ("//".toList) t || startsWithSub ['*'] t then
    { st with inMultilineComment := inC1 }
  else
    let l := trimChars (takeBeforeSub ("//".toList) t)
    if l = [] then { st with inMultilineComment := inC1 }
    else
      { complexity := st.complexity + chainAdd l st.nesting + andOrAdd l + ternaryAdd l st.nesting
        nesting := nestingAfter l nextRaw st.nesting
        inMultilineComment := inC1 }

/-- The loop over all lines, threading the state and the one-line lookahead. -/
def cogGo (st : CogState) : List (List Char) → CogState
  | [] => st
  | raw :: rest => cogGo (cogLine st raw rest.head?) rest

/-- `BaseAnalyzer.calculateCognitiveComplexity`: zero for empty content,
otherwise the loop starting from complexity 0, nesting 0, outside comments
(the final `Math.max(0, complexity)` is the identity on `Nat`). -/
def calculateCognitiveComplexity (content : List Char) : Nat :=
  if content = [] then 0
  else (cogGo { complexity := 0, nesting := 0, inMultilineComment := false } (splitNl content)).complexity

end BaseAnalyzer

/-! ## BaseAnalyzer.calculateMaintainabilityIndex (src/src/analyzer/languages/base.ts)

`Math.log` is the real natural logarithm and `Math.round` rounds half
towards positive infinity, which is Mathlib's `round`.  The float
arithmetic is modelled over `ℝ`. -/

namespace BaseAnalyzer

/-- `BaseAnalyzer.calculateMaintainabilityIndex`: 100 for degenerate input,
otherwise the simplified Microsoft maintainability-index formula with the
`max 1` guards, floored at 0 before rounding and clamped to `[0, 100]`
after rounding.  (The `catch` branch is unreachable: no step throws.) -/
noncomputable def calculateMaintainabilityIndex (complexity linesOfCode : Nat) : Int :=
  if linesOfCode = 0 ∨ complexity = 0 then 100
  else
    let halsteadVolume : Nat := max 1 (linesOfCode * 2)
    let cyclomaticComplexity : Nat := max 1 complexity
    let maintainabilityIndex : ℝ :=
      max 0 ((171 - 5.2 * Real.log halsteadVolume - 0.23 * cyclomaticComplexity
        - 16.2 * Real.log linesOfCode) * 100 / 171)
    min 100 (max 0 (round maintainabilityIndex))

end BaseAnalyzer

/-- The maintainability formula exactly as the specification words it:
`clamp(0,100, round((171 − 5.2·ln(max(1,2·L)) − 0.23·max(1,C) − 16.2·ln(L)) × 100/171))`. -/
noncomputable def maintainabilityIndexSpec (c l : Nat) : Int :=
  max 0 (min 100 (round
    (((171 : ℝ) - 5.2 * Real.log (max 1 (2 * l)) - 0.23 * (max 1 c)
      - 16.2 * Real.log l) * 100 / 171)))

/-! ## JavaAnalyzer.extractFunctions (src/src/analyzer/languages/java.ts)

Per line, the method pattern
`/^\s*(public|private|protected)?\s*(static)?\s*(\w+)\s+(\w+)\s*\([^)]*\)\s*\{?/`
is matched; it is anchored, its optional groups backtrack in order
(alternative, then empty), and the greedy `\w+`/`\s+`/`\s*` runs are
deterministic because the character classes of adjacent atoms are
disjoint.  The embedding returns the two capturing groups
`(returnType, methodName)`. -/

namespace JavaAnalyzer

/-- Match `(\w+)\s+(\w+)\s*\([^)]*\)` at the head of `s`, returning the two
groups. -/
def matchCore (s : List Char) : Option (List Char × List Char) :=
  let w1 := s.takeWhile isWordChar
  if w1 = [] then none
  else
    let r1 := s.drop w1.length
    let sp1 := r1.takeWhile isSpaceChar
    if sp1 = [] then none
    else
      let r2 := r1.drop sp1.length
      let w2 := r2.takeWhile isWordChar
      if w2 = [] then none
      else
        let r3 := (r2.drop w2.length).dropWhile isSpaceChar
        match r3 with
        | '(' :: r4 => if (r4.dropWhile (· ≠ ')')).head? = some ')' then some (w1, w2) else none
        | _ => none

/-- Try the optional `(static)?\s*` group and then the core: the greedy
alternative is preferred, the empty one is the backtracking fallback. -/
def matchAfterAccess (s : List Char) : Option (List Char × List Char) :=
  (if ("static".toList).isPrefixOf s then
    matchCore ((s.drop 6).dropWhile isSpaceChar)
  else none).orElse (fun _ => matchCore s)

/-- `line.match(methodPattern)`, reduced to the pair of capturing groups
`(returnType, methodName)` (groups 3 and 4; the trailing `\s*\{?` never
fails).  The leading `^\s*` and the optional access-modifier group are
resolved here. -/
def matchMethodLine (line : List Char) : Option (List Char × List Char) :=
  let s := line.dropWhile isSpaceChar
  ((["public", "private", "protected"].map String.toList).findSome? (fun kw =>
    if kw.isPrefixOf s then matchAfterAccess ((s.drop kw.length).dropWhile isSpaceChar)
    else none)).orElse (fun _ => matchAfterAccess s)

/-- `countParameters`: the comma-separated token count inside the first
parenthesis span `/\(([^)]*)\)/`, or 0 when the span is absent or blank. -/
def countParameters (methodLine : List Char) : Nat :=
  let afterParen := (methodLine.dropWhile (· ≠ '(')).drop 1
  let inner := afterParen.takeWhile (· ≠ ')')
  if (afterParen.dropWhile (· ≠ ')')).head? = some ')' then
    let paramString := trimChars inner
    if paramString = [] then 0 else countChar ',' paramString + 1
  else 0

/-- One record of the `FunctionAnalysis[]` result. -/
structure FunctionAnalysis where
  name : List Char
  startLine : Nat
  endLine : Nat
  complexity : Nat
  parameters : Nat
  returnType : List Char
deriving DecidableEq, Repr

/-- The method-end scan: starting at line index `i`, accumulate non-empty
lines and a running brace counter; stop at the first later line where the
counter returns to zero.  If it never does, `endLine` stays `i`. -/
def braceScan (i : Nat) : List (List Char) → Nat → Int → List Char → Nat × List Char
  | [], _, _, acc => (i, acc)
  | cur :: rest, j, braceCount, acc =>
    if cur = [] then braceScan i rest (j + 1) braceCount acc
    else
      let acc' := acc ++ cur ++ ['\n']
      let bc' := braceCount + (countChar lbrace cur : Int) - (countChar rbrace cur : Int)
      if bc' = 0 ∧ i < j then (j, acc')
      else braceScan i rest (j + 1) bc' acc'

/-- The line loop of `extractFunctions`: `suffix` is `lines.drop i`. -/
def extractGo (suffix : List (List Char)) (i : Nat) : List FunctionAnalysis :=
  match suffix with
  | [] => []
  | line :: rest =>
    let skip := extractGo rest (i + 1)
    if line = [] then skip
    else
      match matchMethodLine line with
      | none => skip
      | some (returnType, methodName) =>
        if methodName = [] ∨ returnType = [] then skip
        else if methodName = "main".toList ∨ returnType = "void".toList then skip
        else
          let (endLine, methodContent) := braceScan i (line :: rest) i 0 []
          { name := methodName
            startLine := i + 1
            endLine := endLine + 1
            complexity := CyclomaticComplexityCalculator.calculate DEFAULT_CONFIG methodContent
            parameters := countParameters line
            returnType := returnType } :: skip

/-- `JavaAnalyzer.extractFunctions`: scan every line for the method pattern,
skipping `main` and `void` methods; each hit is analysed over its brace
span (`analyzeComplexity` is `cyclomaticCalculator.calculate` on the
method's text). -/
def extractFunctions (content : List Char) : List FunctionAnalysis :=
  extractGo (splitNl content) 0

/-- The line loop of the spec-modelled class extraction below. -/
def classGo (suffix : List (List Char)) (i : Nat) : List (List Char × Nat × Nat) :=
  match suffix with
  | [] => []
  | line :: rest =>
    let skip := classGo rest (i + 1)
    let s := line.dropWhile isSpaceChar
    let afterMod :=
      match (["public", "private", "protected"].map String.toList).findSome? (fun kw =>
        if kw.isPrefixOf s then some ((s.drop kw.length).dropWhile isSpaceChar) else none) with
      | some r => r
      | none => s
    if ("class".toList).isPrefixOf afterMod then
      let r := afterMod.drop 5
      let sp := r.takeWhile isSpaceChar
      let nm := (r.drop sp.length).takeWhile isWordChar
      if sp ≠ [] ∧ nm ≠ [] then
        let (endLine, _) := braceScan i (line :: rest) i 0 []
        (nm, i + 1, endLine + 1) :: skip
      else skip
    else skip

/-- Modelled from the spec: class extraction for Java.  The active
TypeScript `JavaAnalyzer` has no class scanner (its `extractClasses` is
commented out), while the specification's scanner contract requires one:
match a class declaration pattern
(`/^\s*(public|private|protected)?\s*class\s+(\w+)/`) per line and extend
the entity to the matching closing brace.  The embedding returns
`(name, startLine, endLine)` triples. -/
def extractClasses (content : List Char) : List (List Char × Nat × Nat) :=
  classGo (splitNl content) 0

end JavaAnalyzer

/-! ## LanguageDetector (src/lib/analyzer/detectors/languageDetector.js)

The registered language table comes from a configuration file
(`config/languages.json`) and the MIME resolver from the external
`mime-types` package; both are parameters of the embedding.  Per-language
shebang patterns are configuration regexes, modelled as predicates on the
first line; keywords are the literal strings the configuration lists,
counted case-insensitively as the code does. -/

/-- One entry of `languageConfig.languages` (iteration order of
`Object.entries` is the registration order of the list). -/
structure LangConfig where
  extensions : List (List Char)
  mime : Option (List (List Char))
  shebang : Option (List Char → Bool)
  keywords : Option (List (List Char))

namespace LanguageDetector

/-- `path.extname(filePath)`: the suffix of the final path segment from its
last dot, empty when the segment has no dot after its first character
(Node also special-cases the basename `..` to the empty extension). -/
def extname (p : List Char) : List Char :=
  let base := (((p.reverse).takeWhile (· ≠ '/'))).reverse
  if base = ['.', '.'] then []
  else
    match base with
    | [] => []
    | b0 :: btail =>
      let revTail := btail.reverse
      if revTail.contains '.' then '.' :: ((revTail.takeWhile (· ≠ '.')).reverse)
      else
        let _ := b0
        []

/-- `detectByExtension`: the first registered language whose extension list
contains the lower-cased extension of the path. -/
def detectByExtension (langs : List (String × LangConfig)) (filePath : List Char) : Option String :=
  let ext := (extname filePath).map asciiLower
  (langs.find? (fun lc => lc.2.extensions.contains ext)).map (·.1)

/-- `detectByMimeType`: resolve the path to a MIME type (external
`mime.lookup`), then return the first registered language whose `mime`
list contains it. -/
def detectByMimeType (langs : List (String × LangConfig))
    (mimeLookup : List Char → Option (List Char)) (filePath : List Char) : Option String :=
  match mimeLookup filePath with
  | none => none
  | some mimeType =>
    (langs.find? (fun lc =>
      match lc.2.mime with
      | some ms => ms.contains mimeType
      | none => false)).map (·.1)

/-- The keyword score of one language: occurrences of each configured
keyword in the lower-cased content, summed. -/
def keywordScore (ks : List (List Char)) (contentLower : List Char) : Nat :=
  ks.foldl (fun acc k => acc + countSub (k.map asciiLower) contentLower) 0

/-- The `scores` table: every registered language that carries a keyword
list, paired with its score, in registration order. -/
def scoresOf (langs : List (String × LangConfig)) (content : List Char) : List (String × Nat) :=
  let contentLower := content.map asciiLower
  langs.filterMap (fun lc =>
    match lc.2.keywords with
    | some ks => some (lc.1, keywordScore ks contentLower)
    | none => none)

/-- The shebang stage of `detectByContent`: when the first line starts with
`#!`, the first registered language whose shebang pattern accepts it. -/
def shebangMatch (langs : List (String × LangConfig)) (firstLine : List Char) : Option String :=
  if startsWithSub ("#!".toList) firstLine then
    (langs.find? (fun lc =>
      match lc.2.shebang with
      | some test => test firstLine
      | none => false)).map (·.1)
  else none

/-- `detectByContent`: shebang matching on the first line, then keyword
scoring — the first language whose score equals the maximum, provided the
maximum is positive. -/
def detectByContent (langs : List (String × LangConfig)) (content : List Char) : Option String :=
  match shebangMatch langs (splitNl content).headI with
  | some l => some l
  | none =>
    let scores := scoresOf langs content
    match scores with
    | [] => none
    | _ =>
      let maxScore := (scores.map (·.2)).foldl max 0
      if 0 < maxScore then (scores.find? (fun p => p.2 = maxScore)).map (·.1)
      else none

/-- `LanguageDetector.detectLanguage`: extension lookup, then MIME lookup,
then — only for truthy (present and non-empty) content — content
analysis; the first stage to produce a language wins. -/
def detectLanguage (langs : List (String × LangConfig))
    (mimeLookup : List Char → Option (List Char))
    (filePath : List Char) (content : Option (List Char)) : Option String :=
  match detectByExtension langs filePath with
  | some l => some l
  | none =>
    match detectByMimeType langs mimeLookup filePath with
    | some l => some l
    | none =>
      match content with
      | some c => if c ≠ [] then detectByContent langs c else none
      | none => none

end LanguageDetector

/-! ## ComplexityAnalyzer (src/unnamed/part_000)

`analyzeFile` runs under a `try`/`catch` that turns every failure —
missing path (`fs.stat` rejects), an oversized file, an unrecognised
language, a missing analyzer, or a throwing parse — into an error record
for that one file.  The filesystem, the detector, the registry and the
calculator modules required from `./complexity/*` (absent from the
sources) are parameters of the embedding; a successful result keeps the
fields the aggregation reads (per-function entries are elided: the
aggregation only uses the lengths of the `functions`/`classes` arrays,
and `complexity.*.total` may be `undefined`, hence `Option Nat`).
Timestamps are wall-clock output and are not modelled. -/

namespace ComplexityAnalyzer

/-- The fields of a successful per-file result used by `analyzeFiles`. -/
structure FileData where
  language : String
  size : Nat
  lines : Nat
  cyclomaticTotal : Option Nat
  cognitiveTotal : Option Nat
  functionsCount : Nat
  classesCount : Nat
deriving DecidableEq, Repr

/-- A per-file analysis outcome: the success record or the caught error
(`{file, error}`); the two are mutually exclusive. -/
inductive FileResult where
  | ok (file : String) (data : FileData)
  | err (file : String) (message : String)
deriving DecidableEq, Repr

/-- The `file` field of either kind of result. -/
def FileResult.file : FileResult → String
  | .ok f _ => f
  | .err f _ => f

/-- `result.error` truthiness. -/
def FileResult.isError : FileResult → Bool
  | .ok _ _ => false
  | .err _ _ => true

/-- The success payload, when present. -/
def FileResult.data? : FileResult → Option FileData
  | .ok _ d => some d
  | .err _ _ => none

/-- The analyzer object the registry returns: a throwing `parse` plus the
extractors (per-entry details elided; only array lengths reach the
aggregates). -/
structure AnalyzerApi (Ast : Type) where
  parse : List Char → Except String Ast
  functionsCount : Ast → Nat
  classesCount : Ast → Nat

/-- The orchestrator's collaborators: filesystem `stat`/`readFile`, the
language detector, the registry and the two complexity calculators
(returning the `.total` field read by the aggregation, possibly
`undefined`), plus the `maxFileSize` option. -/
structure Env (Ast : Type) where
  stat : String → Option Nat
  readFile : String → List Char
  detect : String → List Char → Option String
  getAnalyzer : String → Option (AnalyzerApi Ast)
  cyclomaticTotal : Ast → String → Option Nat
  cognitiveTotal : Ast → String → Option Nat
  maxFileSize : Nat

/-- `ComplexityAnalyzer.analyzeFile`: stat, size check, read, detect,
registry lookup, parse, score — any failure is caught and returned as the
file's own error record. -/
def analyzeFile {Ast : Type} (env : Env Ast) (filePath : String) : FileResult :=
  match env.stat filePath with
  | none => .err filePath "no such file"
  | some size =>
    if env.maxFileSize < size then .err filePath ("File too large: " ++ toString size ++ " bytes")
    else
      let content := env.readFile filePath
      match env.detect filePath content with
      | none => .err filePath "Unsupported file type"
      | some language =>
        match env.getAnalyzer language with
        | none => .err filePath ("No analyzer found for language: " ++ language)
        | some analyzer =>
          match analyzer.parse content with
          | .error e => .err filePath e
          | .ok ast =>
            .ok filePath
              { language := language
                size := size
                lines := (splitNl content).length
                cyclomaticTotal := env.cyclomaticTotal ast language
                cognitiveTotal := env.cognitiveTotal ast language
                functionsCount := analyzer.functionsCount ast
                classesCount := analyzer.classesCount ast }

/-- `chunkArray(array, size)`: consecutive slices of length `size`.  (The
JavaScript loop never runs for an empty array; for a non-empty array the
call site guarantees `size ≥ 1`.) -/
def chunkArray {α : Type} : List α → Nat → List (List α)
  | [], _ => []
  | a :: rest, 0 => [a :: rest]
  | a :: rest, size + 1 => ((a :: rest).take (size + 1)) :: chunkArray (rest.drop size) (size + 1)
termination_by l => l.length
decreasing_by
  simp only [List.length_drop, List.length_cons]; omega

/-- One min/max/avg/total block of `aggregated.complexity`
(`min` starts at `Infinity`, modelled `none`). -/
structure StatAgg where
  min : Option Nat
  max : Nat
  avg : ℚ
  total : Nat
deriving DecidableEq, Repr

/-- The `aggregated.functions` / `aggregated.classes` blocks.  No statement
of `analyzeFiles` ever assigns `mostComplex` or `averageComplexity`; they
keep their initial values. -/
structure EntityAgg where
  total : Nat
  mostComplex : Option String
  averageComplexity : ℚ
deriving DecidableEq, Repr

/-- The `aggregated` accumulator. -/
structure Aggregated where
  cyclomatic : StatAgg
  cognitive : StatAgg
  functions : EntityAgg
  classes : EntityAgg
deriving DecidableEq, Repr

/-- The initial `aggregated` value. -/
def initAggregated : Aggregated :=
  { cyclomatic := { min := none, max := 0, avg := 0, total := 0 }
    cognitive := { min := none, max := 0, avg := 0, total := 0 }
    functions := { total := 0, mostComplex := none, averageComplexity := 0 }
    classes := { total := 0, mostComplex := none, averageComplexity := 0 } }

/-- `Math.min` against a possibly-`Infinity` accumulator. -/
def minOpt (acc : Option Nat) (t : Nat) : Option Nat :=
  match acc with
  | none => some t
  | some m => some (Nat.min m t)

/-- Fold one complexity total into a stat block (skipped when the total is
`undefined`). -/
def StatAgg.update (s : StatAgg) (t? : Option Nat) : StatAgg :=
  match t? with
  | none => s
  | some t => { s with min := minOpt s.min t, max := Nat.max s.max t, total := s.total + t }

/-- `updateAggregatedStats`: fold one successful file into the accumulator. -/
def updateAggregatedStats (agg : Aggregated) (d : FileData) : Aggregated :=
  { agg with
    cyclomatic := agg.cyclomatic.update d.cyclomaticTotal
    cognitive := agg.cognitive.update d.cognitiveTotal
    functions := { agg.functions with total := agg.functions.total + d.functionsCount }
    classes := { agg.classes with total := agg.classes.total + d.classesCount } }

/-- `finalizeAggregatedStats`: compute the averages when any file was
analyzed, and replace a still-`Infinity` minimum by 0. -/
def finalizeAggregatedStats (agg : Aggregated) (totalFiles : Nat) : Aggregated :=
  let agg :=
    if 0 < totalFiles then
      { agg with
        cyclomatic := { agg.cyclomatic with avg := (agg.cyclomatic.total : ℚ) / (totalFiles : ℚ) }
        cognitive := { agg.cognitive with avg := (agg.cognitive.total : ℚ) / (totalFiles : ℚ) } }
    else agg
  { agg with
    cyclomatic := { agg.cyclomatic with min := some (agg.cyclomatic.min.getD 0) }
    cognitive := { agg.cognitive with min := some (agg.cognitive.min.getD 0) } }

/-- The `summary` block (`languages` is a `Set` serialised in insertion
order). -/
structure Summary where
  totalFiles : Nat
  analyzedFiles : Nat
  errorFiles : Nat
  languages : List String
  totalLines : Nat
  totalSize : Nat
deriving DecidableEq, Repr

/-- The full return value of `analyzeFiles`. -/
structure BatchResults where
  summary : Summary
  files : List FileResult
  aggregated : Aggregated
deriving DecidableEq, Repr

/-- `Set.prototype.add` in insertion order. -/
def addLanguage (ls : List String) (l : String) : List String :=
  if l ∈ ls then ls else ls ++ [l]

/-- The body of the inner result loop of `analyzeFiles`: push the result,
then either bump `errorFiles` or fold the success into the summary and the
aggregates. -/
def processResult (st : BatchResults) (r : FileResult) : BatchResults :=
  let st := { st with files := st.files ++ [r] }
  match r with
  | .err _ _ =>
    { st with summary := { st.summary with errorFiles := st.summary.errorFiles + 1 } }
  | .ok _ d =>
    { st with
      summary :=
        { st.summary with
          analyzedFiles := st.summary.analyzedFiles + 1
          languages := addLanguage st.summary.languages d.language
          totalLines := st.summary.totalLines + d.lines
          totalSize := st.summary.totalSize + d.size }
      aggregated := updateAggregatedStats st.aggregated d }

/-- The initial `results` value of `analyzeFiles`. -/
def initBatch (totalFiles : Nat) : BatchResults :=
  { summary :=
      { totalFiles := totalFiles, analyzedFiles := 0, errorFiles := 0
        languages := [], totalLines := 0, totalSize := 0 }
    files := []
    aggregated := initAggregated }

/-- `ComplexityAnalyzer.analyzeFiles`: chunk the paths with concurrency
`Math.min(10, filePaths.length)`, analyze each chunk (`Promise.all` maps
`analyzeFile` over it), fold every result in order, then finalize the
aggregate averages. -/
def analyzeFiles {Ast : Type} (env : Env Ast) (filePaths : List String) : BatchResults :=
  let concurrency := min 10 filePaths.length
  let chunks := chunkArray filePaths concurrency
  let st := chunks.foldl (fun st chunk => (chunk.map (analyzeFile env)).foldl processResult st)
    (initBatch filePaths.length)
  { st with aggregated := finalizeAggregatedStats st.aggregated st.summary.analyzedFiles }

end ComplexityAnalyzer

/-! ## Claims -/

/-- **C2.** For every input string (empty, blank, or arbitrary text) and
every configuration, `CyclomaticComplexityCalculator.calculate` returns an
integer greater than or equal to 1. -/
theorem cyclomatic_calculate_ge_one (config : CyclomaticConfig) (content : List Char) :
    1 ≤ CyclomaticComplexityCalculator.calculate config content := by
  unfold CyclomaticComplexityCalculator.calculate
  split
  · exact le_refl 1
  · exact Nat.le_max_left 1 _

/-- **C3, counterexample.** Extending `if (x)` with `else if (y) {} else {}`
does not yield cyclomatic complexity 3: the calculator counts the `if`
inside `else if` through the `/\bif\b/g` pattern as well as through the
`/\belse\s+if\b/g` pattern. -/
theorem cyclomatic_else_if_counterexample :
    CyclomaticComplexityCalculator.calculate DEFAULT_CONFIG
      ("if (x) else if (y) \x7b\x7d else \x7b\x7d".toList) ≠ 3 := by
  decide

/-- **C3, amended.** `if (x)` alone scores exactly 2; extending it with
`else if (y) {} else {}` scores exactly 4 — the plain `else` adds nothing,
but the `else if` adds two points, one from the if-pattern and one from
the else-if-pattern. -/
theorem cyclomatic_if_else_if_values :
    CyclomaticComplexityCalculator.calculate DEFAULT_CONFIG ("if (x)".toList) = 2 ∧
    CyclomaticComplexityCalculator.calculate DEFAULT_CONFIG
      ("if (x) else if (y) \x7b\x7d else \x7b\x7d".toList) = 4 := by
  constructor <;> decide

/-- A processed line that reaches one of the nesting-scaled branches of the
rule chain of `calculateCognitiveComplexity`: a plain `if` (rule 1), or —
failing the `else`-rules — a loop, `switch` or `catch` (rules 4, 5, 7). -/
def nestedConstruct (l : List Char) : Bool :=
  (testWordParen ["if"] l && !testElseIfAny l) ||
    (!testElseIfParen l && !testElseNotIf l &&
      (testWordParen ["for", "while", "do"] l || testWordParen ["switch"] l ||
        testWordParen ["catch"] l))

/-- On a nesting-scaled construct line the rule chain contributes exactly
`1 + nesting`. -/
theorem chainAdd_nested {l : List Char} (h : nestedConstruct l = true) (n : Nat) :
    BaseAnalyzer.chainAdd l n = 1 + n := by
  unfold nestedConstruct at h
  unfold BaseAnalyzer.chainAdd
  by_cases hIf : (testWordParen ["if"] l && !testElseIfAny l) = true
  · simp [hIf]
  · simp only [hIf, Bool.false_or] at h
    simp only [Bool.and_eq_true, Bool.not_eq_true'] at h
    obtain ⟨⟨h1, h2⟩, h3⟩ := h
    rcases Bool.or_eq_true _ _ |>.mp h3 with h4 | h5
    · rcases Bool.or_eq_true _ _ |>.mp h4 with h6 | h7
      · simp [hIf, h1, h2, h6]
      · simp [hIf, h1, h2, h7]
    · simp [hIf, h1, h2, h5]

/-- **C4.** Moving an identical decision construct from nesting level `n` to
`n + 1`, everything else unchanged, increases the complexity added by
`calculateCognitiveComplexity` for that line by exactly 1: for any line
that is not comment-skipped, whose processed text carries a nesting-scaled
construct (an `if`, loop, `switch` or `catch`) and no ternary `?`, the
per-line complexity increment at nesting `n + 1` is one more than at
nesting `n`. -/
theorem cognitive_nesting_increment (c n : Nat) (raw : List Char) (nextRaw : Option (List Char))
    (hNoClose : containsSub ("*/".toList) (trimChars raw) = false)
    (hNoOpen : containsSub ("/*".toList) (trimChars raw) = false)
    (hNoLine : startsWithSub ("//".toList) (trimChars raw) = false)
    (hNoStar : startsWithSub ['*'] (trimChars raw) = false)
    (hNonEmpty : BaseAnalyzer.stripLine raw ≠ [])
    (hRule : nestedConstruct (BaseAnalyzer.stripLine raw) = true)
    (hNoTernary : countChar '?' (BaseAnalyzer.stripLine raw) = 0) :
    (BaseAnalyzer.cogLine ⟨c, n + 1, false⟩ raw nextRaw).complexity =
      (BaseAnalyzer.cogLine ⟨c, n, false⟩ raw nextRaw).complexity + 1 := by
  unfold BaseAnalyzer.stripLine at hNonEmpty hRule hNoTernary
  unfold BaseAnalyzer.cogLine
  simp only [hNoClose, hNoOpen, hNoLine, hNoStar, Bool.false_or, Bool.or_self,
    if_neg, Bool.false_eq_true, not_false_eq_true, if_false]
  simp only [hNonEmpty, if_neg, ite_false]
  simp only [chainAdd_nested hRule, BaseAnalyzer.ternaryAdd, hNoTernary]
  simp only [Nat.lt_irrefl, if_false]
  omega

/-- **C4, witness.** The line `if (x) {` processed at nesting level 1 adds
exactly one more point than at nesting level 0. -/
theorem cognitive_nesting_increment_witness :
    (BaseAnalyzer.cogLine ⟨0, 1, false⟩ ("if (x) \x7b".toList) none).complexity =
      (BaseAnalyzer.cogLine ⟨0, 0, false⟩ ("if (x) \x7b".toList) none).complexity + 1 :=
  cognitive_nesting_increment 0 0 ("if (x) \x7b".toList) none (by decide) (by decide)
    (by decide) (by decide) (by decide) (by decide) (by decide)

/-- `round` is monotone (via `round x = ⌊x + 1/2⌋`). -/
theorem round_le_of_le {x y : ℝ} (h : x ≤ y) : round x ≤ round y := by
  rw [round_eq, round_eq]
  exact Int.floor_le_floor (by linarith)

/-- Flooring at zero before rounding and then clamping above agrees with
clamping the rounded value on both sides: the code's
`min 100 (max 0 (round (max 0 x)))` is the specification's
`clamp(0, 100, round x)`. -/
theorem min_max_round_eq_clamp (x : ℝ) :
    min 100 (max 0 (round (max 0 x))) = max 0 (min 100 (round x)) := by
  rcases le_total 0 x with hx | hx
  · rw [max_eq_right hx]
    have hr : (0 : ℤ) ≤ round x := by
      have h0 : round (0 : ℝ) ≤ round x := round_le_of_le hx
      rwa [round_zero] at h0
    rw [max_eq_right hr, max_eq_right (le_min (by norm_num) hr)]
  · have hr : round x ≤ (0 : ℤ) := by
      have h0 : round x ≤ round (0 : ℝ) := round_le_of_le hx
      rwa [round_zero] at h0
    rw [max_eq_left hx, round_zero, max_self,
      min_eq_right (hr.trans (by norm_num : (0 : ℤ) ≤ 100)), max_eq_left hr,
      min_eq_right (by norm_num : (0 : ℤ) ≤ 100)]

/-- **C6.** For every complexity value and line count,
`calculateMaintainabilityIndex` returns an integer in `[0, 100]`; it
returns exactly 100 when the line count or the complexity is zero, and
otherwise equals the specification's
`clamp(0,100, round((171 − 5.2·ln(max(1,2L)) − 0.23·max(1,C) − 16.2·ln(L))·100/171))`. -/
theorem maintainability_index_props (complexity linesOfCode : Nat) :
    (0 ≤ BaseAnalyzer.calculateMaintainabilityIndex complexity linesOfCode ∧
      BaseAnalyzer.calculateMaintainabilityIndex complexity linesOfCode ≤ 100) ∧
    ((linesOfCode = 0 ∨ complexity = 0) →
      BaseAnalyzer.calculateMaintainabilityIndex complexity linesOfCode = 100) ∧
    (¬(linesOfCode = 0 ∨ complexity = 0) →
      BaseAnalyzer.calculateMaintainabilityIndex complexity linesOfCode =
        maintainabilityIndexSpec complexity linesOfCode) := by
  unfold BaseAnalyzer.calculateMaintainabilityIndex
  by_cases h : linesOfCode = 0 ∨ complexity = 0
  · simp [h]
  · rw [if_neg h]
    refine ⟨⟨le_min (by norm_num) (le_max_left 0 _), min_le_left _ _⟩,
      fun hc => absurd hc h, fun _ => ?_⟩
    unfold maintainabilityIndexSpec
    rw [min_max_round_eq_clamp]
    have hV : ((max 1 (linesOfCode * 2) : Nat) : ℝ) = max 1 (2 * (linesOfCode : ℝ)) := by
      push_cast
      rw [mul_comm]
    have hC : ((max 1 complexity : Nat) : ℝ) = max 1 (complexity : ℝ) := by
      push_cast
      rfl
    rw [hV, hC]

/-- **C6, witness.** At complexity 0 the index is exactly 100. -/
theorem maintainability_index_props_witness :
    BaseAnalyzer.calculateMaintainabilityIndex 0 3 = 100 :=
  (maintainability_index_props 0 3).2.1 (Or.inr rfl)

/-- A string of whitespace trims to nothing. -/
theorem trimChars_eq_nil {s : List Char} (h : ∀ c ∈ s, isSpaceChar c = true) :
    trimChars s = [] := by
  unfold trimChars
  have h1 : s.dropWhile isSpaceChar = [] := by
    rw [List.dropWhile_eq_nil_iff]
    exact h
  rw [h1]
  simp

/-- Every line produced by `splitNl` draws its characters from the input. -/
theorem splitNl_chars {p : Char → Bool} :
    ∀ {s : List Char}, (∀ c ∈ s, p c = true) →
      ∀ l ∈ splitNl s, ∀ c ∈ l, p c = true := by
  intro s
  induction s with
  | nil =>
    intro _ l hl
    simp only [splitNl, List.mem_singleton] at hl
    simp [hl]
  | cons a r ih =>
    intro h l hl
    have ha : p a = true := h a (List.mem_cons_self a r)
    have hr : ∀ c ∈ r, p c = true := fun c hc => h c (List.mem_cons_of_mem a hc)
    simp only [splitNl] at hl
    by_cases hnl : a = '\n'
    · rw [if_pos hnl] at hl
      rcases List.mem_cons.mp hl with rfl | hl'
      · intro c hc
        simp at hc
      · exact ih hr l hl'
    · rw [if_neg hnl] at hl
      rcases hsplit : splitNl r with _ | ⟨hd, tl⟩
      · rw [hsplit] at hl
        simp only [List.mem_singleton] at hl
        subst hl
        intro c hc
        rcases List.mem_singleton.mp hc with rfl
        exact ha
      · rw [hsplit] at hl
        rcases List.mem_cons.mp hl with rfl | hl'
        · intro c hc
          rcases List.mem_cons.mp hc with rfl | hc'
          · exact ha
          · exact ih hr hd (hsplit ▸ List.mem_cons_self hd tl) c hc'
        · exact ih hr l (hsplit ▸ List.mem_cons_of_mem hd hl')

/-- A blank line leaves the cognitive-complexity loop state unchanged (when
outside a multi-line comment). -/
theorem cogLine_blank {c n : Nat} {l : List Char} (h : trimChars l = [])
    (nx : Option (List Char)) :
    BaseAnalyzer.cogLine ⟨c, n, false⟩ l nx = ⟨c, n, false⟩ := by
  unfold BaseAnalyzer.cogLine
  rw [h]
  simp [containsSub, startsWithSub, takeBeforeSub, trimChars]

/-- All-blank lines leave the cognitive loop at its initial state. -/
theorem cogGo_blank {c n : Nat} :
    ∀ {ls : List (List Char)}, (∀ l ∈ ls, trimChars l = []) →
      BaseAnalyzer.cogGo ⟨c, n, false⟩ ls = ⟨c, n, false⟩ := by
  intro ls
  induction ls with
  | nil => intro _; rfl
  | cons l rest ih =>
    intro h
    have hl : trimChars l = [] := h l (List.mem_cons_self l rest)
    rw [BaseAnalyzer.cogGo, cogLine_blank hl]
    exact ih (fun x hx => h x (List.mem_cons_of_mem l hx))

/-- The Java method pattern cannot match on a whitespace-only line. -/
theorem matchMethodLine_blank {l : List Char} (h : ∀ c ∈ l, isSpaceChar c = true) :
    JavaAnalyzer.matchMethodLine l = none := by
  unfold JavaAnalyzer.matchMethodLine
  have hs : l.dropWhile isSpaceChar = [] := by
    rw [List.dropWhile_eq_nil_iff]
    exact h
  rw [hs]
  decide

/-- The class pattern cannot match on a whitespace-only line. -/
theorem classLine_blank_skip {l : List Char} (h : ∀ c ∈ l, isSpaceChar c = true) :
    l.dropWhile isSpaceChar = [] := by
  rw [List.dropWhile_eq_nil_iff]
  exact h

/-- `extractFunctions`' line loop produces nothing on all-blank lines. -/
theorem extractGo_blank :
    ∀ {ls : List (List Char)}, (∀ l ∈ ls, ∀ c ∈ l, isSpaceChar c = true) →
      ∀ i, JavaAnalyzer.extractGo ls i = [] := by
  intro ls
  induction ls with
  | nil => intro _ i; rfl
  | cons line rest ih =>
    intro h i
    have hline : ∀ c ∈ line, isSpaceChar c = true := h line (List.mem_cons_self line rest)
    have hrest := fun l hl => h l (List.mem_cons_of_mem line hl)
    rw [JavaAnalyzer.extractGo]
    by_cases hemp : line = []
    · rw [if_pos hemp]
      exact ih hrest (i + 1)
    · rw [if_neg hemp, matchMethodLine_blank hline]
      exact ih hrest (i + 1)

/-- The class-extraction loop produces nothing on all-blank lines. -/
theorem classGo_blank :
    ∀ {ls : List (List Char)}, (∀ l ∈ ls, ∀ c ∈ l, isSpaceChar c = true) →
      ∀ i, JavaAnalyzer.classGo ls i = [] := by
  intro ls
  induction ls with
  | nil => intro _ i; rfl
  | cons line rest ih =>
    intro h i
    have hline : line.dropWhile isSpaceChar = [] :=
      classLine_blank_skip (h line (List.mem_cons_self line rest))
    have hrest := fun l hl => h l (List.mem_cons_of_mem line hl)
    rw [JavaAnalyzer.classGo, hline]
    rw [ih hrest (i + 1)]
    split
    · rename_i hC1
      exact absurd hC1 (by decide)
    · rfl

/-- **C7.** For content that is empty or consists only of whitespace, the
cyclomatic complexity is exactly 1, the cognitive complexity is exactly 0,
and the extracted function and class lists are empty. -/
theorem blank_content_scores (content : List Char)
    (h : ∀ c ∈ content, isSpaceChar c = true) :
    CyclomaticComplexityCalculator.calculate DEFAULT_CONFIG content = 1 ∧
    BaseAnalyzer.calculateCognitiveComplexity content = 0 ∧
    JavaAnalyzer.extractFunctions content = [] ∧
    JavaAnalyzer.extractClasses content = [] := by
  have htrim := trimChars_eq_nil h
  refine ⟨?_, ?_, ?_, ?_⟩
  · unfold CyclomaticComplexityCalculator.calculate
    rw [htrim]
    simp
  · unfold BaseAnalyzer.calculateCognitiveComplexity
    by_cases hemp : content = []
    · rw [if_pos hemp]
    · rw [if_neg hemp]
      have hlines : ∀ l ∈ splitNl content, trimChars l = [] := fun l hl =>
        trimChars_eq_nil (splitNl_chars h l hl)
      rw [cogGo_blank hlines]
  · exact extractGo_blank (splitNl_chars h) 0
  · exact classGo_blank (splitNl_chars h) 0

/-- **C7, witness.** The blank content `" \n  "` scores cyclomatic 1,
cognitive 0 and yields no functions or classes. -/
theorem blank_content_scores_witness :
    CyclomaticComplexityCalculator.calculate DEFAULT_CONFIG (" \n  ".toList) = 1 ∧
    BaseAnalyzer.calculateCognitiveComplexity (" \n  ".toList) = 0 ∧
    JavaAnalyzer.extractFunctions (" \n  ".toList) = [] ∧
    JavaAnalyzer.extractClasses (" \n  ".toList) = [] :=
  blank_content_scores (" \n  ".toList) (by decide)

/-- Every record the `extractFunctions` line loop emits passes the
`main`/`void` guard. -/
theorem extractGo_no_void_main :
    ∀ (ls : List (List Char)) (i : Nat) (f : JavaAnalyzer.FunctionAnalysis),
      f ∈ JavaAnalyzer.extractGo ls i →
        f.returnType ≠ "void".toList ∧ f.name ≠ "main".toList := by
  intro ls
  induction ls with
  | nil =>
    intro i f hf
    simp [JavaAnalyzer.extractGo] at hf
  | cons line rest ih =>
    intro i f hf
    rw [JavaAnalyzer.extractGo] at hf
    split at hf
    · exact ih (i + 1) f hf
    · split at hf
      · exact ih (i + 1) f hf
      · rename_i rt mn
        split at hf
        · exact ih (i + 1) f hf
        · split at hf
          · exact ih (i + 1) f hf
          · rename_i hguard
            push_neg at hguard
            rcases List.mem_cons.mp hf with rfl | hf'
            · exact ⟨hguard.2, hguard.1⟩
            · exact ih (i + 1) f hf'

/-- **C10.** `JavaAnalyzer.extractFunctions` never returns an entry whose
declared return type is `void` or whose name is `main`. -/
theorem extractFunctions_no_void_main (content : List Char)
    (f : JavaAnalyzer.FunctionAnalysis) (hf : f ∈ JavaAnalyzer.extractFunctions content) :
    f.returnType ≠ "void".toList ∧ f.name ≠ "main".toList :=
  extractGo_no_void_main (splitNl content) 0 f hf

/-- A concrete Java snippet for the C10 witness. -/
def c10Content : List Char :=
  ("public static int foo(int a) \x7b\n  return a;\n\x7d\n" ++
   "public static void main(String[] args) \x7b\n\x7d").toList

/-- **C10, witness.** The extracted entry of a concrete snippet is neither
`void`-returning nor named `main`. -/
theorem extractFunctions_no_void_main_witness :
    ((JavaAnalyzer.extractFunctions c10Content).headD
        { name := [], startLine := 0, endLine := 0, complexity := 0,
          parameters := 0, returnType := [] }).returnType ≠ "void".toList ∧
    ((JavaAnalyzer.extractFunctions c10Content).headD
        { name := [], startLine := 0, endLine := 0, complexity := 0,
          parameters := 0, returnType := [] }).name ≠ "main".toList :=
  extractFunctions_no_void_main c10Content _ (by decide)

/-- A `foldl max` only grows its accumulator. -/
theorem le_foldl_max (xs : List Nat) : ∀ a, a ≤ xs.foldl Nat.max a := by
  induction xs with
  | nil => intro a; exact le_refl a
  | cons x t ih => intro a; exact le_trans (Nat.le_max_left a x) (ih (Nat.max a x))

/-- Every member of a list is bounded by its `foldl max`. -/
theorem mem_le_foldl_max {xs : List Nat} {x : Nat} (hx : x ∈ xs) :
    ∀ a, x ≤ xs.foldl Nat.max a := by
  induction xs with
  | nil => exact absurd hx (List.not_mem_nil x)
  | cons y t ih =>
    intro a
    rcases List.mem_cons.mp hx with rfl | hmem
    · exact le_trans (Nat.le_max_right a x) (le_foldl_max t (Nat.max a x))
    · exact ih hmem (Nat.max a y)

/-- **C8.** `detectLanguage` tries its stages strictly in order — extension
table, then MIME type, then (only for truthy content) content analysis —
and returns the first match; when the extension stage matches, the content
is irrelevant; when no stage matches the result is `none`; and the keyword
stage, when it answers, returns a language carrying the maximal score
among the registered keyword scores, which is positive. -/
theorem detectLanguage_stage_order (langs : List (String × LangConfig))
    (mimeLookup : List Char → Option (List Char)) (filePath : List Char)
    (content : Option (List Char)) :
    (∀ l, LanguageDetector.detectByExtension langs filePath = some l →
        LanguageDetector.detectLanguage langs mimeLookup filePath content = some l) ∧
    (LanguageDetector.detectByExtension langs filePath = none →
      ∀ l, LanguageDetector.detectByMimeType langs mimeLookup filePath = some l →
        LanguageDetector.detectLanguage langs mimeLookup filePath content = some l) ∧
    (LanguageDetector.detectByExtension langs filePath = none →
      LanguageDetector.detectByMimeType langs mimeLookup filePath = none →
      LanguageDetector.detectLanguage langs mimeLookup filePath content =
        (match content with
         | some c => if c ≠ [] then LanguageDetector.detectByContent langs c else none
         | none => none)) ∧
    (∀ c l, LanguageDetector.shebangMatch langs (splitNl c).headI = none →
      LanguageDetector.detectByContent langs c = some l →
        ∃ sc, (l, sc) ∈ LanguageDetector.scoresOf langs c ∧ 0 < sc ∧
          ∀ p ∈ LanguageDetector.scoresOf langs c, p.2 ≤ sc) := by
  refine ⟨?_, ?_, ?_, ?_⟩
  · intro l h
    simp only [LanguageDetector.detectLanguage, h]
  · intro hext l h
    simp only [LanguageDetector.detectLanguage, hext, h]
  · intro hext hmime
    simp only [LanguageDetector.detectLanguage, hext, hmime]
  · intro c l hsheb hcontent
    unfold LanguageDetector.detectByContent at hcontent
    rw [hsheb] at hcontent
    rcases hscores : LanguageDetector.scoresOf langs c with _ | ⟨p, ps⟩
    · rw [hscores] at hcontent
      simp at hcontent
    · rw [hscores] at hcontent
      simp only at hcontent
      split at hcontent
      · rename_i hpos
        rcases Option.map_eq_some'.mp hcontent with ⟨q, hfind, hq1⟩
        have hq2 : q.2 = (((p :: ps).map Prod.snd).foldl Nat.max 0) := by
          have := List.find?_some hfind
          exact of_decide_eq_true this
        refine ⟨q.2, ?_, ?_, ?_⟩
        · rw [← hq1]
          simpa using List.mem_of_find?_eq_some hfind
        · rw [hq2]
          exact hpos
        · intro r hr
          rw [hq2]
          exact mem_le_foldl_max (List.mem_map_of_mem Prod.snd hr) 0
      · exact absurd hcontent (by simp)

/-- Concrete registration table for the C8 witness. -/
def c8Langs : List (String × LangConfig) :=
  [("javascript",
    { extensions := [".js".toList], mime := none, shebang := none,
      keywords := some ["function".toList] })]

/-- **C8, witness.** With a table registering `.js`, the path `app/a.js`
resolves by extension, whatever the content says. -/
theorem detectLanguage_stage_order_witness :
    LanguageDetector.detectLanguage c8Langs (fun _ => none) ("app/a.js".toList)
      (some ("random words".toList)) = some "javascript" :=
  (detectLanguage_stage_order c8Langs (fun _ => none) ("app/a.js".toList)
    (some ("random words".toList))).1 "javascript" (by decide)

/-- Concatenating the chunks of `chunkArray` restores the original list. -/
theorem chunkArray_join {α : Type} (k : Nat) :
    ∀ (l : List α), (ComplexityAnalyzer.chunkArray l (k + 1)).flatten = l := by
  intro l
  generalize hn : l.length = n
  induction n using Nat.strong_induction_on generalizing l with
  | _ n ih =>
    cases l with
    | nil => simp [ComplexityAnalyzer.chunkArray]
    | cons a rest =>
      rw [ComplexityAnalyzer.chunkArray]
      rw [List.flatten_cons]
      have hlen : (rest.drop k).length < n := by
        rw [← hn]
        simp only [List.length_drop, List.length_cons]
        omega
      rw [ih (rest.drop k).length hlen (rest.drop k) rfl]
      show (a :: rest).take (k + 1) ++ rest.drop k = a :: rest
      rw [List.take_cons]
      · show a :: (rest.take k ++ rest.drop k) = a :: rest
        rw [List.take_append_drop]
      · exact Nat.succ_pos k

/-- Every chunk of `chunkArray` is at most the chunk size long. -/
theorem chunkArray_length_le {α : Type} (k : Nat) :
    ∀ (l : List α) (c : List α), c ∈ ComplexityAnalyzer.chunkArray l (k + 1) →
      c.length ≤ k + 1 := by
  intro l
  generalize hn : l.length = n
  induction n using Nat.strong_induction_on generalizing l with
  | _ n ih =>
    cases l with
    | nil =>
      intro c hc
      simp [ComplexityAnalyzer.chunkArray] at hc
    | cons a rest =>
      intro c hc
      rw [ComplexityAnalyzer.chunkArray] at hc
      rcases List.mem_cons.mp hc with rfl | hc'
      · exact le_trans (List.length_take_le (k + 1) (a :: rest)) (le_refl (k + 1))
      · have hlen : (rest.drop k).length < n := by
          rw [← hn]
          simp only [List.length_drop, List.length_cons]
          omega
        exact ih (rest.drop k).length hlen (rest.drop k) rfl c hc'

/-- Folding chunk-by-chunk (each chunk mapped and folded, as the
`Promise.all` loop does) equals a single fold over the flattened,
mapped list. -/
theorem foldl_chunks {α β γ : Type} (g : α → γ) (f : β → γ → β) :
    ∀ (chunks : List (List α)) (st : β),
      chunks.foldl (fun acc c => (c.map g).foldl f acc) st =
        ((chunks.flatten).map g).foldl f st := by
  intro chunks
  induction chunks with
  | nil => intro st; rfl
  | cons c t ih =>
    intro st
    rw [List.foldl_cons, ih, List.flatten_cons, List.map_append, List.foldl_append]

/-- Closed form of the result loop of `analyzeFiles`: all results are
appended in order, `errorFiles` counts the failures, and every other
summary field and the whole aggregate are folds over the successful
payloads only. -/
theorem processResult_foldl (rs : List ComplexityAnalyzer.FileResult) :
    ∀ st : ComplexityAnalyzer.BatchResults,
      rs.foldl ComplexityAnalyzer.processResult st =
        { summary :=
            { totalFiles := st.summary.totalFiles
              analyzedFiles := st.summary.analyzedFiles +
                (rs.filterMap ComplexityAnalyzer.FileResult.data?).length
              errorFiles := st.summary.errorFiles + rs.countP ComplexityAnalyzer.FileResult.isError
              languages := (rs.filterMap ComplexityAnalyzer.FileResult.data?).foldl
                (fun ls d => ComplexityAnalyzer.addLanguage ls d.language) st.summary.languages
              totalLines := st.summary.totalLines +
                ((rs.filterMap ComplexityAnalyzer.FileResult.data?).map (fun d => d.lines)).sum
              totalSize := st.summary.totalSize +
                ((rs.filterMap ComplexityAnalyzer.FileResult.data?).map (fun d => d.size)).sum }
          files := st.files ++ rs
          aggregated := (rs.filterMap ComplexityAnalyzer.FileResult.data?).foldl
            ComplexityAnalyzer.updateAggregatedStats st.aggregated } := by
  induction rs with
  | nil =>
    intro st
    simp
  | cons r t ih =>
    intro st
    rw [List.foldl_cons, ih]
    cases r with
    | ok file d =>
      simp only [ComplexityAnalyzer.processResult, ComplexityAnalyzer.FileResult.data?,
        ComplexityAnalyzer.FileResult.isError, List.filterMap_cons, List.countP_cons,
        List.foldl_cons, List.map_cons, List.sum_cons, List.append_assoc,
        List.singleton_append, List.length_cons, Bool.false_eq_true, if_false,
        Nat.add_zero]
      simp only [ComplexityAnalyzer.BatchResults.mk.injEq, ComplexityAnalyzer.Summary.mk.injEq]
      repeat' apply And.intro
      all_goals first | trivial | omega
    | err file msg =>
      simp only [ComplexityAnalyzer.processResult, ComplexityAnalyzer.FileResult.data?,
        ComplexityAnalyzer.FileResult.isError, List.filterMap_cons, List.countP_cons,
        List.foldl_cons, List.map_cons, List.sum_cons, List.append_assoc,
        List.singleton_append, List.length_cons, if_true]
      simp only [ComplexityAnalyzer.BatchResults.mk.injEq, ComplexityAnalyzer.Summary.mk.injEq]
      repeat' apply And.intro
      all_goals first | trivial | omega


/-- Every branch of `analyzeFile` tags the result with the analyzed path. -/
theorem analyzeFile_file {Ast : Type} (env : ComplexityAnalyzer.Env Ast) (p : String) :
    (ComplexityAnalyzer.analyzeFile env p).file = p := by
  simp only [ComplexityAnalyzer.analyzeFile]
  repeat' split
  all_goals rfl

/-- Failures and successes of a result list partition its length. -/
theorem countP_err_add_data (rs : List ComplexityAnalyzer.FileResult) :
    rs.countP ComplexityAnalyzer.FileResult.isError +
      (rs.filterMap ComplexityAnalyzer.FileResult.data?).length = rs.length := by
  induction rs with
  | nil => rfl
  | cons r t ih =>
    cases r with
    | ok file d =>
      simp only [List.countP_cons, ComplexityAnalyzer.FileResult.isError,
        ComplexityAnalyzer.FileResult.data?, List.filterMap_cons, List.length_cons,
        Bool.false_eq_true, if_false, Nat.add_zero]
      omega
    | err file msg =>
      simp only [List.countP_cons, ComplexityAnalyzer.FileResult.isError,
        ComplexityAnalyzer.FileResult.data?, List.filterMap_cons, List.length_cons, if_true]
      omega

/-- `analyzeFiles` equals a single in-order fold of the per-file results,
finalized once at the end. -/
theorem analyzeFiles_unfold {Ast : Type} (env : ComplexityAnalyzer.Env Ast)
    (paths : List String) :
    ComplexityAnalyzer.analyzeFiles env paths =
      (fun st =>
          { st with
            aggregated := (ComplexityAnalyzer.finalizeAggregatedStats st.aggregated
              st.summary.analyzedFiles) })
        ((paths.map (ComplexityAnalyzer.analyzeFile env)).foldl
          ComplexityAnalyzer.processResult (ComplexityAnalyzer.initBatch paths.length)) := by
  simp only [ComplexityAnalyzer.analyzeFiles]
  rw [foldl_chunks]
  cases paths with
  | nil => simp [ComplexityAnalyzer.chunkArray]
  | cons p ps =>
    have hK : min 10 (p :: ps).length = (min 10 (p :: ps).length - 1) + 1 := by
      simp only [List.length_cons]
      omega
    rw [hK, chunkArray_join]

/-- **C1.** In a batch, every file yields its own result in order (a failure
never suppresses a sibling), each result is tagged with its own path,
failed files are exactly what `errorFiles` counts, and every numeric
aggregate — analyzed count, total lines and size, the language set, and
the min/max/avg/total complexity statistics — is computed from the
successful results alone. -/
theorem analyzeFiles_error_isolation {Ast : Type} (env : ComplexityAnalyzer.Env Ast)
    (paths : List String) :
    (ComplexityAnalyzer.analyzeFiles env paths).files =
      paths.map (ComplexityAnalyzer.analyzeFile env) ∧
    (ComplexityAnalyzer.analyzeFiles env paths).files.map ComplexityAnalyzer.FileResult.file =
      paths ∧
    (ComplexityAnalyzer.analyzeFiles env paths).summary.totalFiles = paths.length ∧
    (ComplexityAnalyzer.analyzeFiles env paths).summary.errorFiles =
      (paths.map (ComplexityAnalyzer.analyzeFile env)).countP
        ComplexityAnalyzer.FileResult.isError ∧
    (ComplexityAnalyzer.analyzeFiles env paths).summary.analyzedFiles =
      ((paths.map (ComplexityAnalyzer.analyzeFile env)).filterMap
        ComplexityAnalyzer.FileResult.data?).length ∧
    (ComplexityAnalyzer.analyzeFiles env paths).summary.errorFiles +
      (ComplexityAnalyzer.analyzeFiles env paths).summary.analyzedFiles = paths.length ∧
    (ComplexityAnalyzer.analyzeFiles env paths).summary.totalLines =
      (((paths.map (ComplexityAnalyzer.analyzeFile env)).filterMap
        ComplexityAnalyzer.FileResult.data?).map (fun d => d.lines)).sum ∧
    (ComplexityAnalyzer.analyzeFiles env paths).summary.totalSize =
      (((paths.map (ComplexityAnalyzer.analyzeFile env)).filterMap
        ComplexityAnalyzer.FileResult.data?).map (fun d => d.size)).sum ∧
    (ComplexityAnalyzer.analyzeFiles env paths).summary.languages =
      ((paths.map (ComplexityAnalyzer.analyzeFile env)).filterMap
        ComplexityAnalyzer.FileResult.data?).foldl
        (fun ls d => ComplexityAnalyzer.addLanguage ls d.language) [] ∧
    (ComplexityAnalyzer.analyzeFiles env paths).aggregated =
      ComplexityAnalyzer.finalizeAggregatedStats
        (((paths.map (ComplexityAnalyzer.analyzeFile env)).filterMap
          ComplexityAnalyzer.FileResult.data?).foldl
          ComplexityAnalyzer.updateAggregatedStats ComplexityAnalyzer.initAggregated)
        ((paths.map (ComplexityAnalyzer.analyzeFile env)).filterMap
          ComplexityAnalyzer.FileResult.data?).length := by
  rw [analyzeFiles_unfold, processResult_foldl]
  simp only [ComplexityAnalyzer.initBatch, List.nil_append, Nat.zero_add]
  repeat' apply And.intro
  all_goals first
    | trivial
    | (rw [List.map_map]
       exact List.map_id'' (fun p => analyzeFile_file env p) paths)
    | simpa using countP_err_add_data (paths.map (ComplexityAnalyzer.analyzeFile env))

/-- **C5.** When every file of a batch fails, the summary reports zero
analyzed files and N errors, and every aggregated cyclomatic and cognitive
statistic is 0 — the average is 0 (the division is skipped) and the
minimum is the finalized 0, not the `Infinity` sentinel. -/
theorem analyzeFiles_all_errors {Ast : Type} (env : ComplexityAnalyzer.Env Ast)
    (paths : List String)
    (h : ∀ p ∈ paths, (ComplexityAnalyzer.analyzeFile env p).isError = true) :
    (ComplexityAnalyzer.analyzeFiles env paths).summary.analyzedFiles = 0 ∧
    (ComplexityAnalyzer.analyzeFiles env paths).summary.errorFiles = paths.length ∧
    (ComplexityAnalyzer.analyzeFiles env paths).aggregated.cyclomatic =
      { min := some 0, max := 0, avg := 0, total := 0 } ∧
    (ComplexityAnalyzer.analyzeFiles env paths).aggregated.cognitive =
      { min := some 0, max := 0, avg := 0, total := 0 } := by
  have hdata : ∀ r ∈ paths.map (ComplexityAnalyzer.analyzeFile env),
      ComplexityAnalyzer.FileResult.data? r = none := by
    intro r hr
    rcases List.mem_map.mp hr with ⟨p, hp, rfl⟩
    have hp' := h p hp
    rcases hres : ComplexityAnalyzer.analyzeFile env p with ⟨f, d⟩ | ⟨f, m⟩
    · rw [hres] at hp'
      exact absurd hp' (by simp [ComplexityAnalyzer.FileResult.isError])
    · rfl
  have hnil : (paths.map (ComplexityAnalyzer.analyzeFile env)).filterMap
      ComplexityAnalyzer.FileResult.data? = [] :=
    List.filterMap_eq_nil_iff.mpr hdata
  have hcount : (paths.map (ComplexityAnalyzer.analyzeFile env)).countP
      ComplexityAnalyzer.FileResult.isError = paths.length := by
    have := countP_err_add_data (paths.map (ComplexityAnalyzer.analyzeFile env))
    rw [hnil] at this
    simpa using this
  rw [analyzeFiles_unfold, processResult_foldl]
  simp only [ComplexityAnalyzer.initBatch, Nat.zero_add]
  rw [hnil]
  exact ⟨rfl, hcount, rfl, rfl⟩

/-- A concrete environment (a filesystem on which every `stat` fails) for
the C5 witness. -/
def c5Env : ComplexityAnalyzer.Env Unit :=
  { stat := fun _ => none
    readFile := fun _ => []
    detect := fun _ _ => none
    getAnalyzer := fun _ => none
    cyclomaticTotal := fun _ _ => none
    cognitiveTotal := fun _ _ => none
    maxFileSize := 0 }

/-- **C5, witness.** A two-file batch in which both files fail. -/
theorem analyzeFiles_all_errors_witness :
    (ComplexityAnalyzer.analyzeFiles c5Env ["a.js", "b.js"]).summary.analyzedFiles = 0 ∧
    (ComplexityAnalyzer.analyzeFiles c5Env ["a.js", "b.js"]).summary.errorFiles = 2 ∧
    (ComplexityAnalyzer.analyzeFiles c5Env ["a.js", "b.js"]).aggregated.cyclomatic =
      { min := some 0, max := 0, avg := 0, total := 0 } ∧
    (ComplexityAnalyzer.analyzeFiles c5Env ["a.js", "b.js"]).aggregated.cognitive =
      { min := some 0, max := 0, avg := 0, total := 0 } :=
  analyzeFiles_all_errors c5Env ["a.js", "b.js"] (by decide)

/-- **C9.** `analyzeFiles` schedules its batch in waves: the chunks built
with concurrency `K = min(10, M)` partition the file list in order, and
every chunk — hence every wave of simultaneously started analyses — has at
most `K` files. -/
theorem analyzeFiles_concurrency_waves (filePaths : List String) :
    ((ComplexityAnalyzer.chunkArray filePaths (min 10 filePaths.length)).all
      (fun c => decide (c.length ≤ min 10 filePaths.length))) = true ∧
    (ComplexityAnalyzer.chunkArray filePaths (min 10 filePaths.length)).flatten =
      filePaths := by
  cases filePaths with
  | nil => exact ⟨by simp [ComplexityAnalyzer.chunkArray], by simp [ComplexityAnalyzer.chunkArray]⟩
  | cons p ps =>
    have hK : min 10 (p :: ps).length = (min 10 (p :: ps).length - 1) + 1 := by
      simp only [List.length_cons]
      omega
    constructor
    · rw [List.all_eq_true]
      intro c hc
      rw [hK] at hc
      have hlen := chunkArray_length_le _ _ c hc
      rw [decide_eq_true_eq, hK]
      exact hlen
    · rw [hK, chunkArray_join]
